import Mathlib

/-!
# Verification of the TalentScout real-time interview audio pipeline

Shallow embedding of the audio codec utilities (`audioUtils`), the live
session message handling (`InterviewSession`), and the CV-analysis response
handling (`analyzeCV`) of the TalentScout browser application, together with
proofs of the specified properties.

Conventions:
 - `Uint8Array` contents are modelled as `List (Fin 256)` (every entry of a
   JS `Uint8Array` is a byte).
 - JS floating-point sample values are modelled as rationals `ℚ`; the
   properties proved are about clamping, truncation and quantization bounds,
   which are exact at this level of modelling.
 - JS strings are modelled as `List Char`.
-/

/-! ## Base64 (`encodeBase64` / `decodeBase64` of audioUtils)

The source wraps the platform primitives `btoa` / `atob` around loops that
move bytes into and out of a binary string character by character.  `btoa`
and `atob` are modelled by standard base64 on the alphabet `A-Za-z0-9+/`
with `=` padding, operating three bytes / four characters at a time. -/

/-- The 64-character base64 alphabet used by `btoa` / `atob`. -/
def b64Alphabet : List Char :=
  "ABCDEFGHIJKLMNOPQRSTUVWXYZabcdefghijklmnopqrstuvwxyz0123456789+/".toList

/-- Character of a 6-bit value (`btoa` table lookup). -/
def sextetChar (n : Nat) : Char := b64Alphabet.getD n 'A'

/-- 6-bit value of an alphabet character (`atob` reverse lookup). -/
def charSextet (c : Char) : Nat := b64Alphabet.indexOf c

/-- A byte from a `Nat`, reduced mod 256 (JS `Uint8Array` element write). -/
def byteOfNat (n : Nat) : Fin 256 := ⟨n % 256, Nat.mod_lt _ (by norm_num)⟩

/-- `encodeBase64` of audioUtils: bytes of a `Uint8Array` to a base64 string
(char-code loop composed with `btoa`). -/
def encodeBase64 : List (Fin 256) → List Char
  | [] => []
  | [a] =>
      [sextetChar (a.val / 4), sextetChar (a.val % 4 * 16), '=', '=']
  | [a, b] =>
      [sextetChar (a.val / 4), sextetChar (a.val % 4 * 16 + b.val / 16),
       sextetChar (b.val % 16 * 4), '=']
  | a :: b :: c :: rest =>
      sextetChar (a.val / 4) :: sextetChar (a.val % 4 * 16 + b.val / 16) ::
      sextetChar (b.val % 16 * 4 + c.val / 64) :: sextetChar (c.val % 64) ::
      encodeBase64 rest

/-- `decodeBase64` of audioUtils: base64 string to bytes (`atob` composed
with a char-code loop filling a `Uint8Array`). -/
def decodeBase64 : List Char → List (Fin 256)
  | c1 :: c2 :: c3 :: c4 :: rest =>
      let v1 := charSextet c1
      let v2 := charSextet c2
      if c3 = '=' then
        [byteOfNat (v1 * 4 + v2 / 16)]
      else
        let v3 := charSextet c3
        if c4 = '=' then
          [byteOfNat (v1 * 4 + v2 / 16), byteOfNat (v2 % 16 * 16 + v3 / 4)]
        else
          byteOfNat (v1 * 4 + v2 / 16) :: byteOfNat (v2 % 16 * 16 + v3 / 4) ::
          byteOfNat (v3 % 4 * 64 + charSextet c4) :: decodeBase64 rest
  | _ => []

theorem charSextet_sextetChar : ∀ n, n < 64 → charSextet (sextetChar n) = n := by
  decide

theorem sextetChar_ne_pad : ∀ n, n < 64 → sextetChar n ≠ '=' := by
  decide

theorem byteOfNat_val (n : Nat) : (byteOfNat n).val = n % 256 := rfl

theorem byteOfNat_eq (a : Fin 256) (n : Nat) (h : n = a.val) : byteOfNat n = a := by
  apply Fin.ext
  rw [byteOfNat_val, h, Nat.mod_eq_of_lt a.isLt]

/-- Base64 round-trip on every byte sequence (shared helper). -/
theorem decodeBase64_encodeBase64 (bs : List (Fin 256)) :
    decodeBase64 (encodeBase64 bs) = bs := by
  match bs with
  | [] => rfl
  | [a] =>
      have ha := a.isLt
      simp only [encodeBase64, decodeBase64]
      rw [charSextet_sextetChar (a.val / 4) (by omega),
        charSextet_sextetChar (a.val % 4 * 16) (by omega)]
      rw [byteOfNat_eq a (a.val / 4 * 4 + a.val % 4 * 16 / 16) (by omega)]
      simp
  | [a, b] =>
      have ha := a.isLt
      have hb := b.isLt
      simp only [encodeBase64, decodeBase64]
      rw [if_neg (sextetChar_ne_pad (b.val % 16 * 4) (by omega))]
      rw [charSextet_sextetChar (a.val / 4) (by omega),
        charSextet_sextetChar (a.val % 4 * 16 + b.val / 16) (by omega),
        charSextet_sextetChar (b.val % 16 * 4) (by omega)]
      rw [byteOfNat_eq a (a.val / 4 * 4 + (a.val % 4 * 16 + b.val / 16) / 16) (by omega),
        byteOfNat_eq b ((a.val % 4 * 16 + b.val / 16) % 16 * 16 + b.val % 16 * 4 / 4) (by omega)]
      simp
  | a :: b :: c :: rest =>
      have ha := a.isLt
      have hb := b.isLt
      have hc := c.isLt
      have ih := decodeBase64_encodeBase64 rest
      simp only [encodeBase64, decodeBase64]
      rw [if_neg (sextetChar_ne_pad (b.val % 16 * 4 + c.val / 64) (by omega)),
        if_neg (sextetChar_ne_pad (c.val % 64) (by omega))]
      rw [charSextet_sextetChar (a.val / 4) (by omega),
        charSextet_sextetChar (a.val % 4 * 16 + b.val / 16) (by omega),
        charSextet_sextetChar (b.val % 16 * 4 + c.val / 64) (by omega),
        charSextet_sextetChar (c.val % 64) (by omega)]
      rw [byteOfNat_eq a (a.val / 4 * 4 + (a.val % 4 * 16 + b.val / 16) / 16) (by omega),
        byteOfNat_eq b
          ((a.val % 4 * 16 + b.val / 16) % 16 * 16 + (b.val % 16 * 4 + c.val / 64) / 4)
          (by omega),
        byteOfNat_eq c ((b.val % 16 * 4 + c.val / 64) % 4 * 64 + c.val % 64) (by omega), ih]

/-- C6: for every byte sequence `b`, `textToBytes (bytesToText b) = b`:
`decodeBase64` composed with `encodeBase64` is the identity on all byte
sequences. -/
theorem base64_roundtrip_c6 (bs : List (Fin 256)) :
    decodeBase64 (encodeBase64 bs) = bs :=
  decodeBase64_encodeBase64 bs

/-! ## 16-bit PCM (`createPcmBlob` / `decodeAudioData` of audioUtils)

`createPcmBlob` clamps every float sample to [-1, 1], scales (32768 for
negative, 32767 for non-negative samples), stores into an `Int16Array`
(JS `ToInt16`: truncation toward zero, then wrap into [-32768, 32767]), and
base64-encodes the little-endian bytes of that array.

`decodeAudioData` views the bytes as an `Int16Array` (the constructor
throws a `RangeError` on odd byte length), computes
`frameCount = samples / numChannels` in JS real arithmetic, creates an
`AudioBuffer` (WebIDL truncates the fractional frame count; a zero frame
count makes `createBuffer` throw `NotSupportedError`), and de-interleaves,
dividing every 16-bit sample by 32768.  Writes past the end of a channel's
`Float32Array` (possible when `frameCount` is fractional) are silently
dropped, exactly as in JS. -/

/-- Truncation toward zero of a rational (JS `ToInt16` step 1 / bitwise
truncation of a float to an integer). -/
def truncQ (x : ℚ) : Int := if x < 0 then -⌊-x⌋ else ⌊x⌋

/-- Wrap an integer into the signed 16-bit range (JS `ToInt16` modular
reduction performed by an `Int16Array` element write). -/
def toInt16 (v : Int) : Int :=
  let m := v % 65536
  if m < 32768 then m else m - 65536

/-- Clamp of one sample: `Math.max(-1, Math.min(1, data[i]))`. -/
def clampSample (x : ℚ) : ℚ := max (-1) (min 1 x)

/-- Scaled, truncated sample value before the `Int16Array` write:
`s < 0 ? s * 0x8000 : s * 0x7FFF` truncated toward zero. -/
def rawPcmOfSample (x : ℚ) : Int :=
  let s := clampSample x
  if s < 0 then truncQ (s * 32768) else truncQ (s * 32767)

/-- Little-endian bytes of one `Int16Array` element. -/
def int16ToBytesLE (v : Int) : List (Fin 256) :=
  let u := (v % 65536).toNat
  [byteOfNat (u % 256), byteOfNat (u / 256)]

/-- The byte content of the `Int16Array` built by `createPcmBlob`
(`new Uint8Array(int16.buffer)`): the conversion loop over the frame,
sample by sample. -/
def createPcmBytes : List ℚ → List (Fin 256)
  | [] => []
  | x :: rest => int16ToBytesLE (toInt16 (rawPcmOfSample x)) ++ createPcmBytes rest

/-- `createPcmBlob` of audioUtils: the Gemini Live media blob built from one
Float32 capture frame (base64 data plus MIME tag). -/
def createPcmBlob (frame : List ℚ) : List Char × String :=
  (encodeBase64 (createPcmBytes frame), "audio/pcm;rate=16000")

/-- Signed 16-bit value of two little-endian bytes (one `Int16Array`
element read). -/
def int16OfBytes (lo hi : Fin 256) : Int :=
  let u : Nat := hi.val * 256 + lo.val
  if u < 32768 then (u : Int) else (u : Int) - 65536

/-- The `Int16Array` view of a byte sequence, element by element
(`new Int16Array(data.buffer)`); an odd trailing byte cannot occur because
the constructor throws first. -/
def toInt16List : List (Fin 256) → List Int
  | lo :: hi :: rest => int16OfBytes lo hi :: toInt16List rest
  | _ => []

/-- The `AudioBuffer` produced by `decodeAudioData`: per-channel float data
at a sample rate. -/
structure AudioBuffer where
  numChannels : Nat
  sampleRate : ℚ
  channels : List (List ℚ)
  deriving Repr, DecidableEq

/-- `AudioBuffer.duration` as used by the playback scheduler:
frame count divided by sample rate. -/
def AudioBuffer.duration (b : AudioBuffer) : ℚ :=
  ((b.channels.headD []).length : ℚ) / b.sampleRate

/-- `decodeAudioData` of audioUtils.  Failure cases are the platform
exceptions the source's statements raise: `RangeError` from the
`Int16Array` constructor on an odd byte length, `NotSupportedError` from
`createBuffer` when the truncated frame count is zero. -/
def decodeAudioData (data : List (Fin 256)) (sampleRate : ℚ) (numChannels : Nat) :
    Except String AudioBuffer :=
  if data.length % 2 ≠ 0 then
    .error "RangeError: byte length of Int16Array should be a multiple of 2"
  else
    let dataInt16 := toInt16List data
    let frames := dataInt16.length / numChannels
    if frames = 0 then
      .error "NotSupportedError: AudioContext.createBuffer: zero frame count"
    else
      .ok { numChannels := numChannels
            sampleRate := sampleRate
            channels :=
              (List.range numChannels).map (fun ch =>
                (List.range frames).map (fun i =>
                  ((dataInt16.getD (i * numChannels + ch) 0 : Int) : ℚ) / 32768)) }

/-! ## Properties of the PCM encoder (claim C7) -/

theorem clampSample_mem (x : ℚ) : -1 ≤ clampSample x ∧ clampSample x ≤ 1 := by
  unfold clampSample
  exact ⟨le_max_left _ _, max_le (by norm_num) (min_le_left _ _)⟩

theorem clampSample_eq_self {x : ℚ} (h1 : -1 ≤ x) (h2 : x ≤ 1) :
    clampSample x = x := by
  unfold clampSample
  rw [min_eq_right h2, max_eq_right h1]

theorem clampSample_idem (x : ℚ) : clampSample (clampSample x) = clampSample x :=
  clampSample_eq_self (clampSample_mem x).1 (clampSample_mem x).2

theorem rawPcmOfSample_clamp (x : ℚ) :
    rawPcmOfSample (clampSample x) = rawPcmOfSample x := by
  unfold rawPcmOfSample
  rw [clampSample_idem]

theorem rawPcmOfSample_bounds (x : ℚ) :
    -32768 ≤ rawPcmOfSample x ∧ rawPcmOfSample x ≤ 32767 := by
  obtain ⟨hl, hr⟩ := clampSample_mem x
  unfold rawPcmOfSample truncQ
  set s := clampSample x with hs
  by_cases hneg : s < 0
  · rw [if_pos hneg]
    have hx : s * 32768 < 0 := by nlinarith
    rw [if_pos hx]
    constructor
    · have h1 : (⌊-(s * 32768)⌋ : ℚ) ≤ -(s * 32768) := Int.floor_le _
      have h2 : -(s * 32768) ≤ 32768 := by nlinarith
      have h3 : ((⌊-(s * 32768)⌋ : Int) : ℚ) ≤ ((32768 : Int) : ℚ) := by push_cast; linarith
      have h4 : ⌊-(s * 32768)⌋ ≤ 32768 := by exact_mod_cast h3
      omega
    · have h5 : 0 ≤ ⌊-(s * 32768)⌋ := Int.floor_nonneg.mpr (by nlinarith)
      omega
  · rw [if_neg hneg]
    push_neg at hneg
    have hx : ¬ (s * 32767 < 0) := by push_neg; nlinarith
    rw [if_neg hx]
    constructor
    · have h5 : (0 : Int) ≤ ⌊s * 32767⌋ := Int.floor_nonneg.mpr (by nlinarith)
      omega
    · have h1 : (⌊s * 32767⌋ : ℚ) ≤ s * 32767 := Int.floor_le _
      have h2 : s * 32767 ≤ 32767 := by nlinarith
      have h3 : ((⌊s * 32767⌋ : Int) : ℚ) ≤ ((32767 : Int) : ℚ) := by push_cast; linarith
      exact_mod_cast h3

theorem toInt16_eq_self {v : Int} (h1 : -32768 ≤ v) (h2 : v ≤ 32767) :
    toInt16 v = v := by
  simp only [toInt16]
  split <;> omega

theorem createPcmBytes_clamp (frame : List ℚ) :
    createPcmBytes (frame.map clampSample) = createPcmBytes frame := by
  induction frame with
  | nil => rfl
  | cons a t ih =>
      simp only [List.map_cons, createPcmBytes]
      rw [rawPcmOfSample_clamp, ih]

/-- C7: `createPcmBlob` first clamps each sample to [-1, 1]; the scaled,
truncated value never overflows the signed 16-bit range (the `Int16Array`
write wraps nothing), and encoding a frame with out-of-range samples equals
encoding the clamped frame; in particular a 1.5 sample encodes like 1.0 and
a -2.0 sample like -1.0. -/
theorem pcm_encode_clamps_c7 :
    (∀ frame : List ℚ, createPcmBlob (frame.map clampSample) = createPcmBlob frame)
    ∧ (∀ x : ℚ, -32768 ≤ rawPcmOfSample x ∧ rawPcmOfSample x ≤ 32767
        ∧ toInt16 (rawPcmOfSample x) = rawPcmOfSample x)
    ∧ createPcmBlob [(3/2 : ℚ)] = createPcmBlob [(1 : ℚ)]
    ∧ createPcmBlob [(-2 : ℚ)] = createPcmBlob [(-1 : ℚ)] := by
  have hone : ∀ x y : ℚ, clampSample x = clampSample y → createPcmBlob [x] = createPcmBlob [y] := by
    intro x y h
    unfold createPcmBlob
    simp only [createPcmBytes]
    rw [← rawPcmOfSample_clamp x, ← rawPcmOfSample_clamp y, h]
  refine ⟨?_, ?_, ?_, ?_⟩
  · intro frame
    unfold createPcmBlob
    rw [createPcmBytes_clamp]
  · intro x
    obtain ⟨h1, h2⟩ := rawPcmOfSample_bounds x
    exact ⟨h1, h2, toInt16_eq_self h1 h2⟩
  · refine hone _ _ ?_
    unfold clampSample
    norm_num
  · refine hone _ _ ?_
    unfold clampSample
    norm_num

/-! ## Properties of `decodeAudioData` (claim C5) -/

theorem toInt16List_length (data : List (Fin 256)) :
    (toInt16List data).length = data.length / 2 := by
  match data with
  | [] => rfl
  | [x] => simp [toInt16List]
  | lo :: hi :: rest =>
      have ih := toInt16List_length rest
      simp only [toInt16List, List.length_cons, ih]
      omega

theorem toInt16List_getD (data : List (Fin 256)) (k : Nat)
    (hk : 2 * k + 1 < data.length) :
    (toInt16List data).getD k 0 =
      int16OfBytes (data.getD (2 * k) 0) (data.getD (2 * k + 1) 0) := by
  match data with
  | [] => simp only [List.length_nil] at hk; omega
  | [x] => simp only [List.length_cons, List.length_nil] at hk; omega
  | lo :: hi :: rest =>
      match k with
      | 0 => rfl
      | k + 1 =>
          have ih := toInt16List_getD rest k
            (by simp only [List.length_cons] at hk; omega)
          simp only [toInt16List, List.getD_cons_succ]
          rw [ih]
          have e1 : (lo :: hi :: rest).getD (2 * (k + 1)) 0 = rest.getD (2 * k) 0 := by
            have h2 : 2 * (k + 1) = 2 * k + 1 + 1 := by omega
            rw [h2, List.getD_cons_succ, List.getD_cons_succ]
          have e2 : (hi :: rest).getD (2 * (k + 1)) 0 = rest.getD (2 * k + 1) 0 := by
            have h2 : 2 * (k + 1) = 2 * k + 1 + 1 := by omega
            rw [h2, List.getD_cons_succ]
          rw [e1, e2]

/-- C5 (amended): `decodeAudioData` performs no frame-alignment check of its
own.  An odd byte length fails with the platform `RangeError` of the
`Int16Array` constructor (there is no `MalformedAudioError` in the code);
for any even nonzero-frame byte length — a multiple of `2 * channelCount`
or not — it interprets the bytes as 16-bit signed little-endian samples,
de-interleaves by channel, divides each by 32768, and silently truncates to
`(byteLength / 2) / channelCount` full frames. -/
theorem decode_length_check_c5 (data : List (Fin 256)) (sampleRate : ℚ) (nc : Nat)
    (hnc : 0 < nc) :
    (data.length % 2 = 1 →
      decodeAudioData data sampleRate nc =
        .error "RangeError: byte length of Int16Array should be a multiple of 2")
    ∧ (data.length % 2 = 0 → 0 < data.length / 2 / nc →
      decodeAudioData data sampleRate nc =
        .ok { numChannels := nc
              sampleRate := sampleRate
              channels :=
                (List.range nc).map (fun ch =>
                  (List.range (data.length / 2 / nc)).map (fun i =>
                    ((int16OfBytes (data.getD (2 * (i * nc + ch)) 0)
                        (data.getD (2 * (i * nc + ch) + 1) 0) : Int) : ℚ) / 32768)) }) := by
  constructor
  · intro hodd
    unfold decodeAudioData
    rw [if_pos (by omega)]
  · intro heven hpos
    have hlen := toInt16List_length data
    simp only [decodeAudioData, hlen]
    rw [if_neg (by omega), if_neg (by omega)]
    congr 1
    simp only [AudioBuffer.mk.injEq, true_and]
    apply List.map_congr_left
    intro ch hch
    rw [List.mem_range] at hch
    apply List.map_congr_left
    intro i hi
    rw [List.mem_range] at hi
    have h4 : i * nc + ch < data.length / 2 := by
      calc i * nc + ch < i * nc + nc := Nat.add_lt_add_left hch _
        _ = (i + 1) * nc := by ring
        _ ≤ (data.length / 2 / nc) * nc := Nat.mul_le_mul_right nc (by omega)
        _ ≤ data.length / 2 := Nat.div_mul_le_self _ _
    have hidx : 2 * (i * nc + ch) + 1 < data.length := by
      set m := i * nc + ch with hm
      omega
    rw [toInt16List_getD data (i * nc + ch) hidx]

/-- C5 counterexample: a byte sequence of length 6 with channel count 2 —
6 is not a multiple of `2 * 2` — does not fail: `decodeAudioData` succeeds
and silently truncates to one frame per channel. -/
theorem decode_length_check_c5_counterexample :
    decodeAudioData (List.replicate 6 (0 : Fin 256)) 24000 2 =
      .ok { numChannels := 2, sampleRate := 24000, channels := [[0], [0]] } := by
  simp [decodeAudioData, toInt16List, int16OfBytes, List.replicate, List.range_succ]

/-- C5 witness: an odd-length byte sequence fails with the typed-array
`RangeError`, and a 4-byte two-frame mono sequence decodes to the two
little-endian 16-bit samples divided by 32768. -/
theorem decode_length_check_c5_witness :
    decodeAudioData [(0 : Fin 256)] 24000 1 =
      .error "RangeError: byte length of Int16Array should be a multiple of 2"
    ∧ decodeAudioData [(1 : Fin 256), 0, 0, 1] 24000 1 =
      .ok { numChannels := 1
            sampleRate := 24000
            channels :=
              (List.range 1).map (fun ch =>
                (List.range ((4 : Nat) / 2 / 1)).map (fun i =>
                  ((int16OfBytes ([(1 : Fin 256), 0, 0, 1].getD (2 * (i * 1 + ch)) 0)
                      ([(1 : Fin 256), 0, 0, 1].getD (2 * (i * 1 + ch) + 1) 0) : Int) : ℚ)
                    / 32768)) } := by
  exact ⟨(decode_length_check_c5 [0] 24000 1 (by norm_num)).1 (by decide),
    (decode_length_check_c5 [1, 0, 0, 1] 24000 1 (by norm_num)).2 (by decide) (by decide)⟩

/-! ## Decode of encode: quantization error (claim C8) -/

theorem createPcmBytes_length (frame : List ℚ) :
    (createPcmBytes frame).length = 2 * frame.length := by
  induction frame with
  | nil => rfl
  | cons a t ih =>
      simp only [createPcmBytes, int16ToBytesLE, List.length_append, List.length_cons,
        List.length_nil, ih]
      omega

theorem toInt16List_int16ToBytesLE (v : Int) (rest : List (Fin 256))
    (h1 : -32768 ≤ v) (h2 : v ≤ 32767) :
    toInt16List (int16ToBytesLE v ++ rest) = v :: toInt16List rest := by
  simp only [int16ToBytesLE, List.cons_append, List.nil_append, toInt16List]
  congr 1
  have hge : (0 : Int) ≤ v % 65536 := Int.emod_nonneg v (by norm_num)
  have hlt : v % 65536 < 65536 := Int.emod_lt_of_pos v (by norm_num)
  have hu : ((v % 65536).toNat : Int) = v % 65536 := Int.toNat_of_nonneg hge
  simp only [int16OfBytes, byteOfNat_val]
  split <;> omega

theorem toInt16List_createPcmBytes (frame : List ℚ) :
    toInt16List (createPcmBytes frame) = frame.map (fun x => rawPcmOfSample x) := by
  induction frame with
  | nil => rfl
  | cons a t ih =>
      obtain ⟨hb1, hb2⟩ := rawPcmOfSample_bounds a
      simp only [createPcmBytes, List.map_cons]
      rw [toInt16_eq_self hb1 hb2, toInt16List_int16ToBytesLE _ _ hb1 hb2, ih]

theorem range_map_getD {α β : Type} (l : List α) (d : α) (f : α → β) :
    (List.range l.length).map (fun i => f (l.getD i d)) = l.map f := by
  induction l with
  | nil => rfl
  | cons a t ih =>
      rw [List.length_cons, List.range_succ_eq_map, List.map_cons, List.map_map]
      congr 1

/-- Decoding the bytes produced by the PCM encoder yields one mono channel
holding each scaled-truncated sample divided by 32768. -/
theorem decode_createPcmBytes (frame : List ℚ) (hne : frame ≠ []) :
    decodeAudioData (createPcmBytes frame) 24000 1 =
      .ok { numChannels := 1
            sampleRate := 24000
            channels := [frame.map (fun x => ((rawPcmOfSample x : Int) : ℚ) / 32768)] } := by
  have hlen := createPcmBytes_length frame
  have hmap := toInt16List_createPcmBytes frame
  have hlen2 : (toInt16List (createPcmBytes frame)).length = frame.length := by
    rw [hmap, List.length_map]
  have hfne : frame.length ≠ 0 := fun h => hne (List.length_eq_zero.mp h)
  simp only [decodeAudioData, hlen2, Nat.div_one]
  rw [if_neg (by omega), if_neg (by omega)]
  congr 1
  simp only [AudioBuffer.mk.injEq, true_and]
  rw [show List.range 1 = [0] by rfl, List.map_cons, List.map_nil]
  congr 1
  simp only [mul_one, add_zero]
  rw [← hlen2, range_map_getD (toInt16List (createPcmBytes frame)) 0
    (fun v => ((v : Int) : ℚ) / 32768), hmap, List.map_map]
  rfl

/-- Per-sample quantization error of encode-then-decode, for an in-range
sample: decode underestimates a non-negative sample by at most
`(x + 1) / 32768 ≤ 2 / 32768` (the encoder scales by 32767 but the decoder
divides by 32768) and overestimates a negative sample by less than
`1 / 32768`. -/
theorem pcm_quant_error (x : ℚ) (h1 : -1 ≤ x) (h2 : x ≤ 1) :
    |x - ((rawPcmOfSample x : Int) : ℚ) / 32768| ≤ 2 / 32768 := by
  unfold rawPcmOfSample truncQ
  rw [clampSample_eq_self h1 h2]
  by_cases hneg : x < 0
  · rw [if_pos hneg]
    have hx : x * 32768 < 0 := by nlinarith
    rw [if_pos hx]
    have hf1 : (⌊-(x * 32768)⌋ : ℚ) ≤ -(x * 32768) := Int.floor_le _
    have hf2 : -(x * 32768) - 1 < (⌊-(x * 32768)⌋ : ℚ) := Int.sub_one_lt_floor _
    rw [abs_le]
    constructor
    · push_cast
      linarith
    · push_cast
      linarith
  · rw [if_neg hneg]
    push_neg at hneg
    have hx : ¬ (x * 32767 < 0) := by push_neg; nlinarith
    rw [if_neg hx]
    have hf1 : (⌊x * 32767⌋ : ℚ) ≤ x * 32767 := Int.floor_le _
    have hf2 : x * 32767 - 1 < (⌊x * 32767⌋ : ℚ) := Int.sub_one_lt_floor _
    rw [abs_le]
    constructor
    · linarith
    · linarith

/-- C8 (amended): for a nonempty mono frame of samples in [-1, 1], decoding
the encoded frame reproduces each sample within a quantization error of
`2 / 32768` per sample (the bound `1 / 32768` claimed for all samples holds
only for the negative ones; non-negative samples are scaled by 32767 on
encode but divided by 32768 on decode). -/
theorem decode_encode_quant_c8 (frame : List ℚ) (hne : frame ≠ [])
    (hmem : ∀ x ∈ frame, -1 ≤ x ∧ x ≤ 1) :
    ∃ ds : List ℚ,
      decodeAudioData (decodeBase64 (createPcmBlob frame).1) 24000 1 =
        .ok { numChannels := 1, sampleRate := 24000, channels := [ds] }
      ∧ ds.length = frame.length
      ∧ ∀ k (hk : k < frame.length) (hk2 : k < ds.length),
          |frame.get ⟨k, hk⟩ - ds.get ⟨k, hk2⟩| ≤ 2 / 32768 := by
  refine ⟨frame.map (fun x => ((rawPcmOfSample x : Int) : ℚ) / 32768), ?_, ?_, ?_⟩
  · show decodeAudioData (decodeBase64 (encodeBase64 (createPcmBytes frame))) 24000 1 = _
    rw [decodeBase64_encodeBase64, decode_createPcmBytes frame hne]
  · rw [List.length_map]
  · intro k hk hk2
    have hget : (frame.map (fun x => ((rawPcmOfSample x : Int) : ℚ) / 32768)).get ⟨k, hk2⟩ =
        ((rawPcmOfSample (frame.get ⟨k, hk⟩) : Int) : ℚ) / 32768 := by
      simp [List.get_map]
    rw [hget]
    obtain ⟨hm1, hm2⟩ := hmem (frame.get ⟨k, hk⟩) (frame.get_mem _ _)
    exact pcm_quant_error _ hm1 hm2

/-- C8 counterexample: for the mono frame `[9/10]` the decoded sample is
`29490 / 32768 = 14745 / 16384` and the reproduction error exceeds the
claimed `1 / 32768` bound. -/
theorem decode_encode_quant_c8_counterexample :
    decodeAudioData (decodeBase64 (createPcmBlob [(9/10 : ℚ)]).1) 24000 1 =
      .ok { numChannels := 1, sampleRate := 24000, channels := [[14745/16384]] }
    ∧ ¬ (|(9/10 : ℚ) - 14745/16384| ≤ 1 / 32768) := by
  constructor
  · show decodeAudioData (decodeBase64 (encodeBase64 (createPcmBytes [(9/10 : ℚ)]))) 24000 1 = _
    rw [decodeBase64_encodeBase64, decode_createPcmBytes _ (List.cons_ne_nil _ _)]
    have hr : rawPcmOfSample (9/10) = 29490 := by
      norm_num [rawPcmOfSample, clampSample, truncQ]
    have hq : ((29490 : Int) : ℚ) / 32768 = 14745/16384 := by norm_num
    simp only [List.map_cons, List.map_nil, hr, hq]
  · rw [abs_le]
    push_neg
    intro h
    norm_num

/-- C8 witness: the amended bound applied to the concrete mono frame
`[1/2]`. -/
theorem decode_encode_quant_c8_witness :
    ∃ ds : List ℚ,
      decodeAudioData (decodeBase64 (createPcmBlob [(1/2 : ℚ)]).1) 24000 1 =
        .ok { numChannels := 1, sampleRate := 24000, channels := [ds] }
      ∧ ds.length = [(1/2 : ℚ)].length
      ∧ ∀ k (hk : k < [(1/2 : ℚ)].length) (hk2 : k < ds.length),
          |[(1/2 : ℚ)].get ⟨k, hk⟩ - ds.get ⟨k, hk2⟩| ≤ 2 / 32768 :=
  decode_encode_quant_c8 [(1/2 : ℚ)] (List.cons_ne_nil _ _)
    (by intro x hx; rw [List.mem_singleton] at hx; subst hx; norm_num)

/-! ## Playback scheduling discipline (claim C1)

`InterviewSession.handleServerMessage` schedules each inbound audio segment
with

  nextStartTime = max(nextStartTime, outputAudioContext.currentTime);
  source.start(nextStartTime);
  nextStartTime += audioBuffer.duration;

An inbound segment is abstracted as a pair `(clock, dur)`: the output-clock
reading at the moment the handler runs and the decoded buffer duration. -/

/-- One scheduling step of `handleServerMessage`: the updated pending
`nextStartTime` after handling a segment `(clock, dur)`. -/
def schedStep (nst : ℚ) (e : ℚ × ℚ) : ℚ := max nst e.1 + e.2

/-- Pending `nextStartTime` after a sequence of segments. -/
def nextStartAfter (nst : ℚ) (events : List (ℚ × ℚ)) : ℚ :=
  events.foldl schedStep nst

/-- The start times passed to `source.start` for a sequence of segments. -/
def scheduleStarts (nst : ℚ) : List (ℚ × ℚ) → List ℚ
  | [] => []
  | e :: rest => max nst e.1 :: scheduleStarts (schedStep nst e) rest

theorem scheduleStarts_length (nst : ℚ) (l : List (ℚ × ℚ)) :
    (scheduleStarts nst l).length = l.length := by
  induction l generalizing nst with
  | nil => rfl
  | cons e rest ih => simp [scheduleStarts, ih]

theorem nextStartAfter_cons (nst : ℚ) (e : ℚ × ℚ) (l : List (ℚ × ℚ)) :
    nextStartAfter nst (e :: l) = nextStartAfter (schedStep nst e) l := rfl

/-- Generalized back-to-back property: if from the second segment on, each
segment is handled while the output clock is at most the pending
`nextStartTime`, consecutive start times differ exactly by the previous
segment's duration. -/
theorem scheduleStarts_chain (l : List (ℚ × ℚ)) (nst : ℚ)
    (h : ∀ j (hj : j < l.length), 0 < j →
      (l.get ⟨j, hj⟩).1 ≤ nextStartAfter nst (l.take j))
    (k : Nat) (hk : k + 1 < l.length) :
    (scheduleStarts nst l).get ⟨k + 1, by rw [scheduleStarts_length]; exact hk⟩ =
      (scheduleStarts nst l).get ⟨k, by rw [scheduleStarts_length]; omega⟩
        + (l.get ⟨k, by omega⟩).2 := by
  induction l generalizing nst k with
  | nil => simp at hk
  | cons e rest ih =>
      match k with
      | 0 =>
          match rest, hk with
          | f :: rest2, _ =>
              have hf : f.1 ≤ schedStep nst e :=
                h 1 (by simp only [List.length_cons]; omega) (by omega)
              show max (schedStep nst e) f.1 = max nst e.1 + e.2
              rw [max_eq_left hf]
              unfold schedStep
              rfl
      | k + 1 =>
          have hshift : ∀ j (hj : j < rest.length), 0 < j →
              (rest.get ⟨j, hj⟩).1 ≤ nextStartAfter (schedStep nst e) (rest.take j) := by
            intro j hj hj0
            have h1 := h (j + 1) (by simp only [List.length_cons]; omega) (by omega)
            have h2 : (e :: rest).take (j + 1) = e :: rest.take j := rfl
            rw [h2, nextStartAfter_cons] at h1
            exact h1
          have := ih (schedStep nst e) hshift k
            (by simp only [List.length_cons] at hk; omega)
          exact this

/-- C1: for every sequence of inbound audio segments handled by the
playback scheduler, if each segment after the first arrives while the
output clock does not exceed the pending `nextStartTime` (the previously
scheduled audio has not finished), then consecutive scheduled start times
satisfy `start (n+1) = start n + dur n`: segments play back-to-back in
arrival order with no gap and no overlap. -/
theorem playback_gapless_c1 (events : List (ℚ × ℚ))
    (h : ∀ j (hj : j < events.length), 0 < j →
      (events.get ⟨j, hj⟩).1 ≤ nextStartAfter 0 (events.take j))
    (k : Nat) (hk : k + 1 < events.length) :
    (scheduleStarts 0 events).get ⟨k + 1, by rw [scheduleStarts_length]; exact hk⟩ =
      (scheduleStarts 0 events).get ⟨k, by rw [scheduleStarts_length]; omega⟩
        + (events.get ⟨k, by omega⟩).2 :=
  scheduleStarts_chain events 0 h k hk

/-- C1 witness: three segments of durations 1, 2, 3 arriving at clock times
0, 1/2 and 2 — each before the pending `nextStartTime` — are scheduled at
0, 1 and 3: exactly back-to-back. -/
theorem playback_gapless_c1_witness :
    (scheduleStarts 0 [((0 : ℚ), (1 : ℚ)), (1/2, 2), (2, 3)]).get
        ⟨1, by rw [scheduleStarts_length]; norm_num⟩ =
      (scheduleStarts 0 [((0 : ℚ), (1 : ℚ)), (1/2, 2), (2, 3)]).get
        ⟨0, by rw [scheduleStarts_length]; norm_num⟩
        + ([((0 : ℚ), (1 : ℚ)), (1/2, 2), (2, 3)].get ⟨0, by norm_num⟩).2 := by
  have hhyp : ∀ j (hj : j < ([((0 : ℚ), (1 : ℚ)), (1/2, 2), (2, 3)]).length), 0 < j →
      (([((0 : ℚ), (1 : ℚ)), (1/2, 2), (2, 3)]).get ⟨j, hj⟩).1 ≤
        nextStartAfter 0 (([((0 : ℚ), (1 : ℚ)), (1/2, 2), (2, 3)]).take j) := by
    intro j hj hj0
    simp only [List.length_cons, List.length_nil] at hj
    interval_cases j
    · show (1/2 : ℚ) ≤ max 0 0 + 1
      norm_num
    · show (2 : ℚ) ≤ max (max 0 0 + 1) (1/2) + 2
      rw [max_self, zero_add, max_eq_left (by norm_num : (1/2 : ℚ) ≤ 1)]
      norm_num
  exact playback_gapless_c1 [((0 : ℚ), (1 : ℚ)), (1/2, 2), (2, 3)] hhyp 0 (by norm_num)

/-! ## The live session (`InterviewSession`), claims C2, C3, C9, C10

The session's callback-driven state is modelled explicitly and each
callback returns the list of externally visible effects it performs.
`currentTime` (the output clock) is passed to the message handler as the
value read when the handler runs.  `hasOutputCtx` models
`outputAudioContext !== null` (never reset by `stop()`); `ctxClosed` models
the output `AudioContext` having completed `close()` — closing is
asynchronous in `stop()`, so a state with `active = false` and
`ctxClosed = false` is reachable.  On a closed context `createBuffer`
throws `InvalidStateError`, which the handler's try/catch swallows. -/

/-- An inbound live-stream message: `serverContent.interrupted` and the
base64 audio payload at `serverContent.modelTurn.parts[0].inlineData.data`
(`none` when any link of that optional chain is absent). -/
structure LiveMessage where
  interrupted : Bool
  audioData : Option (List Char)
  deriving Repr

/-- Externally visible actions of the session callbacks.  `volume` carries
the mean square of the frame; the source reports `Math.sqrt` of it (kept
symbolic — the square root is irrational). -/
inductive SessionEffect where
  | stopSource (id : Nat)
  | startSource (id : Nat) (startTime : ℚ)
  | volume (meanSquare : ℚ)
  | send (data : List Char) (mimeType : String)
  | cleanup
  | disconnect
  deriving Repr, DecidableEq

/-- The mutable state of an `InterviewSession`. -/
structure SessionState where
  active : Bool
  hasOutputCtx : Bool
  ctxClosed : Bool
  nextStartTime : ℚ
  sources : List Nat
  nextSourceId : Nat
  hasCleanup : Bool
  hasOnDisconnect : Bool
  deriving Repr, DecidableEq

/-- Sum of squares of a capture frame (the visualizer loop). -/
def sumSquares : List ℚ → ℚ
  | [] => 0
  | x :: rest => x * x + sumSquares rest

/-- The `onaudioprocess` capture callback: checks the `active` flag at its
top; otherwise reports the RMS volume and sends the encoded frame. -/
def onAudioProcess (st : SessionState) (inputData : List ℚ) : List SessionEffect :=
  if !st.active then []
  else
    [SessionEffect.volume (sumSquares inputData / inputData.length),
     SessionEffect.send (createPcmBlob inputData).1 (createPcmBlob inputData).2]

/-- `InterviewSession.handleServerMessage`: early return when
`outputAudioContext` is null; on `interrupted` stop every active source,
clear the set, reset `nextStartTime` and return; on an audio payload read
the clock into `nextStartTime = max(nextStartTime, currentTime)`, decode
(failures are caught and only logged, leaving `nextStartTime` advanced to
the max), then start a source at `nextStartTime` and add the duration. -/
def handleServerMessage (now : ℚ) (st : SessionState) (msg : LiveMessage) :
    SessionState × List SessionEffect :=
  if !st.hasOutputCtx then (st, [])
  else if msg.interrupted then
    ({ st with sources := [], nextStartTime := 0 },
     st.sources.map SessionEffect.stopSource)
  else
    match msg.audioData with
    | none => (st, [])
    | some b64 =>
        let nst := max st.nextStartTime now
        match (if st.ctxClosed then Except.error "InvalidStateError" else
            decodeAudioData (decodeBase64 b64) 24000 1) with
        | .error _ => ({ st with nextStartTime := nst }, [])
        | .ok buf =>
            ({ st with nextStartTime := nst + buf.duration,
                       sources := st.sources ++ [st.nextSourceId],
                       nextSourceId := st.nextSourceId + 1 },
             [SessionEffect.startSource st.nextSourceId nst])

/-- The `source.onended` callback: the segment removes itself from the
active set on natural completion. -/
def sourceEnded (st : SessionState) (id : Nat) : SessionState :=
  { st with sources := st.sources.erase id }

/-- `InterviewSession.stop`: clears the `active` flag, runs the stored
cleanup if present, invokes the disconnect callback if set — with no
idempotency guard of any kind. -/
def stopSession (st : SessionState) : SessionState × List SessionEffect :=
  ({ st with active := false },
   (if st.hasCleanup then [SessionEffect.cleanup] else [])
     ++ (if st.hasOnDisconnect then [SessionEffect.disconnect] else []))

/-- A concrete running session state used in witnesses: two callbacks set,
one active source (id 3), pending `nextStartTime` 7. -/
def sessionStateRun : SessionState :=
  { active := true, hasOutputCtx := true, ctxClosed := false, nextStartTime := 7,
    sources := [3], nextSourceId := 4, hasCleanup := true, hasOnDisconnect := true }

/-- The post-interrupt session state: empty active set, `nextStartTime`
reset to zero. -/
def sessionStateReset : SessionState :=
  { active := true, hasOutputCtx := true, ctxClosed := false, nextStartTime := 0,
    sources := [], nextSourceId := 4, hasCleanup := true, hasOnDisconnect := true }

/-- A stopped-but-not-yet-closed session state (`stop()` ran, the
asynchronous `close()` has not completed), with a stale pending
`nextStartTime` of 5. -/
def sessionStateStopped : SessionState :=
  { active := false, hasOutputCtx := true, ctxClosed := false, nextStartTime := 5,
    sources := [3], nextSourceId := 4, hasCleanup := true, hasOnDisconnect := true }

/-- Decoding a two-byte zero payload (one zero mono sample), used as a
concrete valid audio message in witnesses. -/
theorem decode_zero_payload :
    decodeAudioData (decodeBase64 (encodeBase64 [(0 : Fin 256), 0])) 24000 1 =
      .ok { numChannels := 1, sampleRate := 24000, channels := [[0]] } := by
  rw [decodeBase64_encodeBase64]
  simp [decodeAudioData, toInt16List, int16OfBytes, List.range_succ]

/-- C2: on an interrupt message the handler stops every segment in the
active set, clears the set and resets `nextStartTime` to zero; a segment
arriving after the interrupt is scheduled to start exactly at the current
output-clock reading ("now"), not at any previously computed future time. -/
theorem interrupt_resets_c2 :
    (∀ (now : ℚ) (st : SessionState) (a : Option (List Char)),
      st.hasOutputCtx = true →
      handleServerMessage now st { interrupted := true, audioData := a } =
        ({ st with sources := [], nextStartTime := 0 },
         st.sources.map SessionEffect.stopSource))
    ∧ (∀ (now : ℚ) (st : SessionState) (b64 : List Char) (buf : AudioBuffer),
      st.hasOutputCtx = true → st.ctxClosed = false → st.nextStartTime = 0 →
      0 ≤ now →
      decodeAudioData (decodeBase64 b64) 24000 1 = .ok buf →
      (handleServerMessage now st { interrupted := false, audioData := some b64 }).2 =
        [SessionEffect.startSource st.nextSourceId now]) := by
  constructor
  · intro now st a h
    simp [handleServerMessage, h]
  · intro now st b64 buf h1 h2 h3 h4 h5
    simp [handleServerMessage, h1, h2, h3, h5, max_eq_right h4]

/-- C2 witness: interrupting a session with one active source (id 3) and
pending `nextStartTime` 7 stops that source, clears the set and zeroes
`nextStartTime`; a zero-sample segment arriving afterwards at clock time 6
is started exactly at 6. -/
theorem interrupt_resets_c2_witness :
    handleServerMessage 5 sessionStateRun { interrupted := true, audioData := none } =
      ({ sessionStateRun with sources := [], nextStartTime := 0 },
       [SessionEffect.stopSource 3])
    ∧ (handleServerMessage 6 sessionStateReset
        { interrupted := false, audioData := some (encodeBase64 [0, 0]) }).2 =
      [SessionEffect.startSource 4 6] :=
  ⟨interrupt_resets_c2.1 5 sessionStateRun none rfl,
   interrupt_resets_c2.2 6 sessionStateReset (encodeBase64 [0, 0])
     { numChannels := 1, sampleRate := 24000, channels := [[0]] }
     rfl rfl rfl (by norm_num) decode_zero_payload⟩

/-- C10: a message carrying both the interrupted flag and an audio payload
is handled exactly like a pure interrupt message: the active set is
stopped and cleared, `nextStartTime` is reset to zero, and the bundled
audio is neither decoded nor scheduled (the only effects are stops). -/
theorem interrupt_discards_audio_c10 (now : ℚ) (st : SessionState) (b64 : List Char)
    (h : st.hasOutputCtx = true) :
    handleServerMessage now st { interrupted := true, audioData := some b64 } =
      handleServerMessage now st { interrupted := true, audioData := none }
    ∧ (handleServerMessage now st { interrupted := true, audioData := some b64 }).1.sources = []
    ∧ (handleServerMessage now st
        { interrupted := true, audioData := some b64 }).1.nextStartTime = 0
    ∧ ∀ e ∈ (handleServerMessage now st { interrupted := true, audioData := some b64 }).2,
        ∃ id, e = SessionEffect.stopSource id := by
  refine ⟨?_, ?_, ?_, ?_⟩
  · simp [handleServerMessage, h]
  · simp [handleServerMessage, h]
  · simp [handleServerMessage, h]
  · intro e he
    simp only [handleServerMessage, h, Bool.not_true, Bool.false_eq_true, if_false,
      if_true] at he
    rw [List.mem_map] at he
    obtain ⟨id, _, rfl⟩ := he
    exact ⟨id, rfl⟩

/-- C10 witness: the statement evaluated on the concrete running state and
a concrete bundled audio payload. -/
theorem interrupt_discards_audio_c10_witness :
    handleServerMessage 5 sessionStateRun
        { interrupted := true, audioData := some (encodeBase64 [0, 0]) } =
      handleServerMessage 5 sessionStateRun { interrupted := true, audioData := none }
    ∧ (handleServerMessage 5 sessionStateRun
        { interrupted := true, audioData := some (encodeBase64 [0, 0]) }).1.sources = []
    ∧ (handleServerMessage 5 sessionStateRun
        { interrupted := true, audioData := some (encodeBase64 [0, 0]) }).1.nextStartTime = 0
    ∧ ∀ e ∈ (handleServerMessage 5 sessionStateRun
        { interrupted := true, audioData := some (encodeBase64 [0, 0]) }).2,
        ∃ id, e = SessionEffect.stopSource id :=
  interrupt_discards_audio_c10 5 sessionStateRun (encodeBase64 [0, 0]) rfl

/-- C9 (amended): only the capture callback checks the `active` flag at its
top — after `stop()` no capture frame produces a volume report or an
outbound send.  `handleServerMessage` never reads the flag (it guards only
on `outputAudioContext` being non-null, which `stop()` does not clear), so
its behaviour is identical whether `active` is set or not: a late inbound
message is still fully processed. -/
theorem active_guard_c9 :
    (∀ (st : SessionState) (inputData : List ℚ),
      st.active = false → onAudioProcess st inputData = [])
    ∧ (∀ (now : ℚ) (st : SessionState) (msg : LiveMessage),
      (handleServerMessage now st msg).1 =
        { (handleServerMessage now { st with active := true } msg).1 with
            active := st.active }
      ∧ (handleServerMessage now st msg).2 =
        (handleServerMessage now { st with active := true } msg).2) := by
  constructor
  · intro st inputData h
    simp [onAudioProcess, h]
  · intro now st msg
    by_cases h1 : st.hasOutputCtx = true
    · by_cases h2 : msg.interrupted = true
      · constructor <;> simp [handleServerMessage, h1, h2]
      · rw [Bool.not_eq_true] at h2
        match hmsg : msg.audioData with
        | none =>
            constructor <;> simp [handleServerMessage, h1, h2, hmsg] <;>
              (cases st; simp_all)
        | some b64 =>
            match hd : (if st.ctxClosed then Except.error "InvalidStateError" else
                decodeAudioData (decodeBase64 b64) 24000 1) with
            | .error e =>
                constructor <;> simp [handleServerMessage, h1, h2, hmsg, hd]
            | .ok buf =>
                constructor <;> simp [handleServerMessage, h1, h2, hmsg, hd]
    · rw [Bool.not_eq_true] at h1
      constructor <;> simp [handleServerMessage, h1] <;> (cases st; simp_all)

/-- C9 counterexample: with `active = false` after `stop()` but the output
context not yet closed (its `close()` is asynchronous), an inbound audio
message is not a no-op — the handler still schedules a playback segment,
starting at the stale pending `nextStartTime` 5. -/
theorem active_guard_c9_counterexample :
    (handleServerMessage 0 sessionStateStopped
        { interrupted := false, audioData := some (encodeBase64 [0, 0]) }).2 =
      [SessionEffect.startSource 4 5]
    ∧ sessionStateStopped.active = false := by
  constructor
  · simp [handleServerMessage, sessionStateStopped, decode_zero_payload,
      max_eq_left (by norm_num : (0 : ℚ) ≤ 5)]
  · rfl

/-- C9 witness: the capture callback is a no-op on a stopped session, and
the message handler's behaviour on the stopped session matches its
behaviour with the flag forced on. -/
theorem active_guard_c9_witness :
    onAudioProcess sessionStateStopped [(1 : ℚ)/2] = []
    ∧ (handleServerMessage 0 sessionStateStopped
        { interrupted := true, audioData := none }).2 =
      (handleServerMessage 0 { sessionStateStopped with active := true }
        { interrupted := true, audioData := none }).2 :=
  ⟨active_guard_c9.1 sessionStateStopped [(1 : ℚ)/2] rfl,
   (active_guard_c9.2 0 sessionStateStopped { interrupted := true, audioData := none }).2⟩

/-- C3 (the code evaluated at the failing input): `stop()` has no
idempotency guard — called twice on a session with a disconnect callback
and a stored cleanup, each call runs the cleanup and invokes the
disconnect callback, so two disconnect notifications are delivered, not
one. -/
theorem stop_twice_two_disconnects_c3 :
    (stopSession sessionStateRun).2
        ++ (stopSession (stopSession sessionStateRun).1).2 =
      [SessionEffect.cleanup, SessionEffect.disconnect,
       SessionEffect.cleanup, SessionEffect.disconnect]
    ∧ ((stopSession sessionStateRun).2
        ++ (stopSession (stopSession sessionStateRun).1).2).count
          SessionEffect.disconnect = 2 := by
  constructor <;> rfl

/-! ## CV analysis response handling (`analyzeCV`), claim C4 -/

/-- A JSON value as produced by the platform `JSON.parse`. -/
inductive Json where
  | str (s : String)
  | num (q : ℚ)
  | bool (b : Bool)
  | null
  | arr (items : List Json)
  | obj (fields : List (String × Json))
  deriving Repr

/-- Property access on a parsed response object (`undefined` when the key
is absent or the value is not an object). -/
def Json.getField : Json → String → Option Json
  | .obj fields, k => fields.lookup k
  | _, _ => none

def Json.isString : Json → Bool
  | .str _ => true
  | _ => false

def Json.isStringArray : Json → Bool
  | .arr items => items.all Json.isString
  | _ => false

def jsonFieldIsString (j : Json) (k : String) : Bool :=
  match j.getField k with
  | some v => v.isString
  | none => false

def jsonFieldIsStringArray (j : Json) (k : String) : Bool :=
  match j.getField k with
  | some v => v.isStringArray
  | none => false

/-- Modelled from the spec's words (§6): a well-formed analysis response is
a JSON object with required string fields `candidateName` and `summary`
and array-of-string fields `topics` and `technicalSkills`.  Stated for
comparison with what the code actually checks. -/
def specAnalysisResponseValid (j : Json) : Bool :=
  jsonFieldIsString j "candidateName" && jsonFieldIsString j "summary"
    && jsonFieldIsStringArray j "topics" && jsonFieldIsStringArray j "technicalSkills"

/-- The response handling of `analyzeCV` (lines 61-66 of the service):
`JSON.parse` is a platform primitive, so its outcome on
`response.text || '{}'` is modelled as `Option Json` (`none` when the text
is not valid JSON; an absent `response.text` is replaced by `'{}'` and so
parses to the empty object).  The parsed value is returned through an
unchecked TypeScript cast (`result as CVAnalysis`); the surrounding
try/catch converts any thrown error into the fixed
"Failed to analyze CV content." failure.  No field validation occurs. -/
def analyzeCVResponse (parsed : Option Json) : Except String Json :=
  match parsed with
  | some j => .ok j
  | none => .error "Failed to analyze CV content."

/-- C4 (amended): `analyzeCV` surfaces the analysis failure exactly when
the response text fails to parse as JSON; every successfully parsed
response — including one missing or malforming every required field — is
returned as-is, with no validation against the required-field schema. -/
theorem analyze_cv_no_validation_c4 :
    (∀ j : Json, specAnalysisResponseValid j = false →
      analyzeCVResponse (some j) = .ok j)
    ∧ (∀ parsed : Option Json,
      (∃ e, analyzeCVResponse parsed = .error e) ↔ parsed = none) := by
  constructor
  · intro j _
    rfl
  · intro parsed
    cases parsed <;> simp [analyzeCVResponse]

/-- C4 counterexample: the empty JSON object (exactly what an empty
`response.text` produces via the `|| '{}'` fallback) is missing all four
required fields, yet `analyzeCV` returns it as a profile instead of
failing. -/
theorem analyze_cv_no_validation_c4_counterexample :
    analyzeCVResponse (some (Json.obj [])) = .ok (Json.obj [])
    ∧ specAnalysisResponseValid (Json.obj []) = false :=
  ⟨rfl, rfl⟩

/-- C4 witness: a parsed response holding only a `summary` string — hence
invalid per the spec's required-field schema — is still returned as-is. -/
theorem analyze_cv_no_validation_c4_witness :
    analyzeCVResponse (some (Json.obj [("summary", Json.str "backend engineer")])) =
      .ok (Json.obj [("summary", Json.str "backend engineer")]) :=
  analyze_cv_no_validation_c4.1 (Json.obj [("summary", Json.str "backend engineer")]) rfl
